import Mathlib

/-
Verification of the jrny SQL statement scanner and of the Begin command.

The lexical state machine is translated from src/parser/states.rs; the
driver (statement accumulator), which is not among the provided source
files, is modelled from the specification (sections 4.2, 7 and 8).
The Begin command file-system behaviour is translated from
src/commands/begin.rs over an abstract file-system state.
-/

namespace Jrny

/-- Dispositions of the state machine, translated from the Rust enum
Action in src/parser/states.rs (spec names: Drop = Ignore,
Emit = Append, Hold = Carry). -/
inductive Action where
  | Ignore
  | Append
  | Carry
deriving DecidableEq

/-- Lexer states, translated from the unit structs implementing the State
trait in src/parser/states.rs (spec names: InQuotedIdentifier =
InDelimitedIdentifier, MaybeLineComment = MightStartInlineComment,
InLineComment = InInlineComment, MaybeBlockComment =
MightStartBlockComment, MaybeEndBlockComment = MightEndBlockComment). -/
inductive State where
  | Start
  | InString
  | InDelimitedIdentifier
  | MightStartInlineComment
  | InInlineComment
  | MightStartBlockComment
  | InBlockComment
  | MightEndBlockComment
deriving DecidableEq

/-- Translated from the can_terminate trait method: the trait default is
false, and exactly Start, MightStartInlineComment and
MightStartBlockComment override it to true. -/
def State.can_terminate : State → Bool
  | .Start => true
  | .MightStartInlineComment => true
  | .MightStartBlockComment => true
  | _ => false

/-- Transition function, translated match arm by match arm from the
accept implementations in src/parser/states.rs. The lookahead key is a
string of one or two graphemes; the Rust wildcard arms are the trailing
else branches. The string "\u0027" is the single-quote grapheme. -/
def State.accept : State → String → Action × State
  | .Start, s =>
    if s = "\u0027" then (.Append, .InString)
    else if s = "\"" then (.Append, .InDelimitedIdentifier)
    else if s = "-" then (.Carry, .MightStartInlineComment)
    else if s = "/" then (.Carry, .MightStartBlockComment)
    else (.Append, .Start)
  | .InString, s =>
    if s = "\u0027" then (.Append, .Start)
    else (.Append, .InString)
  | .InDelimitedIdentifier, s =>
    if s = "\"" then (.Append, .Start)
    else (.Append, .InDelimitedIdentifier)
  | .MightStartInlineComment, s =>
    if s = "\u0027" then (.Append, .InString)
    else if s = "\"" then (.Append, .InDelimitedIdentifier)
    else if s = "--" then (.Ignore, .InInlineComment)
    else if s = "/" then (.Carry, .MightStartBlockComment)
    else (.Append, .Start)
  | .InInlineComment, s =>
    if s = "\n" then (.Append, .Start)
    else (.Ignore, .InInlineComment)
  | .MightStartBlockComment, s =>
    if s = "\u0027" then (.Append, .InString)
    else if s = "\"" then (.Append, .InDelimitedIdentifier)
    else if s = "-" then (.Ignore, .MightStartInlineComment)
    else if s = "/*" then (.Carry, .InBlockComment)
    else (.Append, .Start)
  | .InBlockComment, s =>
    if s = "*" then (.Carry, .MightEndBlockComment)
    else (.Ignore, .InBlockComment)
  | .MightEndBlockComment, s =>
    if s = "*/" then (.Ignore, .Start)
    else (.Ignore, .InBlockComment)

/-- Transition table written out from the table in section 4.1 of the
specification, row for row and in row order, under the spec naming
Emit = Append, Drop = Ignore, Hold = Carry. This is the second
definition of a refinement pair: it follows the words of the spec and is
compared against State.accept, which follows the source. -/
def specTable : State → String → Action × State
  | .Start, s =>
    if s = "\u0027" then (.Append, .InString)
    else if s = "\"" then (.Append, .InDelimitedIdentifier)
    else if s = "-" then (.Carry, .MightStartInlineComment)
    else if s = "/" then (.Carry, .MightStartBlockComment)
    else (.Append, .Start)
  | .InString, s =>
    if s = "\u0027" then (.Append, .Start)
    else (.Append, .InString)
  | .InDelimitedIdentifier, s =>
    if s = "\"" then (.Append, .Start)
    else (.Append, .InDelimitedIdentifier)
  | .MightStartInlineComment, s =>
    if s = "\u0027" then (.Append, .InString)
    else if s = "\"" then (.Append, .InDelimitedIdentifier)
    else if s = "--" then (.Ignore, .InInlineComment)
    else if s = "/" then (.Carry, .MightStartBlockComment)
    else (.Append, .Start)
  | .InInlineComment, s =>
    if s = "\n" then (.Append, .Start)
    else (.Ignore, .InInlineComment)
  | .MightStartBlockComment, s =>
    if s = "\u0027" then (.Append, .InString)
    else if s = "\"" then (.Append, .InDelimitedIdentifier)
    else if s = "-" then (.Ignore, .MightStartInlineComment)
    else if s = "/*" then (.Carry, .InBlockComment)
    else (.Append, .Start)
  | .InBlockComment, s =>
    if s = "*" then (.Carry, .MightEndBlockComment)
    else (.Ignore, .InBlockComment)
  | .MightEndBlockComment, s =>
    if s = "*/" then (.Ignore, .Start)
    else (.Ignore, .InBlockComment)

/-- Driver state: machine state, held lookahead graphemes, the grapheme
buffer of the statement in progress, and the completed statements. -/
structure ScanState where
  state : State
  held : List String
  buf : List String
  stmts : List String
deriving DecidableEq

/-- Whitespace test on a single grapheme, used when a flushed buffer is
surfaced as a statement. -/
def isWs (g : String) : Bool :=
  g = " " || g = "\n" || g = "\t" || g = "\r"

/-- Remove leading and trailing whitespace graphemes from a buffer. -/
def trimWs (l : List String) : List String :=
  ((l.dropWhile isWs).reverse.dropWhile isWs).reverse

/-- Modelled from the spec: flushing the accumulated buffer as a
completed Statement (section 4.2 step 3). A buffer containing only
whitespace is not flushed as a statement, and the section 8 examples
show statements surfaced without surrounding whitespace, so the buffer
is trimmed of leading and trailing whitespace graphemes. -/
def flushInto (stmts buf : List String) : List String :=
  if trimWs buf = [] then stmts else stmts ++ [String.join (trimWs buf)]

/-- Modelled from the spec: one step of the statement accumulator
(section 4.2 step 2), which is not among the provided source files. The
lookahead key is the held graphemes followed by the current grapheme; on
Append the key is appended to the buffer and a statement boundary is
flushed when the emitted delimiter `;` leaves the machine in Start; on
Ignore the key is discarded; on Carry the whole key is held. -/
def step (sc : ScanState) (g : String) : ScanState :=
  let key := sc.held ++ [g]
  let r := sc.state.accept (String.join key)
  match r.1 with
  | .Append =>
    if g = ";" ∧ r.2 = State.Start then
      { state := r.2, held := [], buf := [],
        stmts := flushInto sc.stmts (sc.buf ++ key) }
    else
      { state := r.2, held := [], buf := sc.buf ++ key, stmts := sc.stmts }
  | .Ignore => { state := r.2, held := [], buf := sc.buf, stmts := sc.stmts }
  | .Carry => { state := r.2, held := key, buf := sc.buf, stmts := sc.stmts }

/-- Initial driver state (section 4.2 step 1). -/
def scanInit : ScanState := ⟨.Start, [], [], []⟩

/-- Fold of the driver over the whole grapheme sequence. -/
def scanCore (gs : List String) : ScanState := gs.foldl step scanInit

/-- Typed lexical failures from the taxonomy in section 7 of the spec.
The spec names no error for a line comment open at end of input (its
prose even says that case succeeds), while the source marks
InInlineComment non-terminable; the extra variant records the failure
the driver must produce there. -/
inductive LexError where
  | UnterminatedString
  | UnterminatedQuotedIdentifier
  | UnterminatedBlockComment
  | UnterminatedLineComment
deriving DecidableEq

/-- Modelled from the spec: the unterminated-construct error named by a
non-terminable final state (sections 4.2 step 4 and 7). The wildcard
covers InBlockComment and MightEndBlockComment; terminable states are
never passed to this function by the driver. -/
def errFor : State → LexError
  | .InString => .UnterminatedString
  | .InDelimitedIdentifier => .UnterminatedQuotedIdentifier
  | .InInlineComment => .UnterminatedLineComment
  | _ => .UnterminatedBlockComment

/-- Modelled from the spec: end-of-input resolution (section 4.2 step
4). In a terminable final state any held graphemes are emitted as
literal text and the trailing buffer is flushed; in a non-terminable
state the scan fails with the matching typed error and no statements are
produced. -/
def scanEOF (sc : ScanState) : Except LexError (List String) :=
  if sc.state.can_terminate then
    .ok (flushInto sc.stmts (sc.buf ++ sc.held))
  else
    .error (errFor sc.state)

/-- Modelled from the spec: the full scan of one revision text, a pure
fold followed by end-of-input resolution (section 4.2). -/
def scan (gs : List String) : Except LexError (List String) :=
  scanEOF (scanCore gs)

/-- Grapheme feed for ASCII-only inputs, where every character is its
own grapheme cluster; the real feed is an external collaborator. -/
def asciiGraphemes (s : String) : List String :=
  s.toList.map (fun c => String.singleton c)

/-- Shapes the held lookahead can take in each state: a dash while the
machine might be starting a line comment, a slash while it might be
starting a block comment, the open marker just carried into a block
comment, and an asterisk while the comment might be ending. -/
def heldFor : State → List String → Prop
  | .MightStartInlineComment, h => h = [] ∨ h = ["-"]
  | .MightStartBlockComment, h => h = ["/"]
  | .InBlockComment, h => h = [] ∨ h = ["/", "*"]
  | .MightEndBlockComment, h => h = ["*"]
  | _, h => h = []

/-- Invariant of the driver: the held graphemes always have the shape
heldFor allows for the current state. -/
def heldInv (sc : ScanState) : Prop := heldFor sc.state sc.held

/-- A grapheme that is none of the four special graphemes of the
comment-free round-trip property and is not whitespace. -/
def cleanG (g : String) : Bool :=
  !(g == "\u0027") && !(g == "\"") && !(g == "-") && !(g == "/") && !(isWs g)

/-- Abstract file-system state for the Begin command: whether each of
the five paths the command touches exists (project root directory,
revisions directory, config file, environment file, and example
environment file). -/
structure FS where
  root_dir : Bool
  revisions_dir : Bool
  conf_file : Bool
  env_file : Bool
  env_ex_file : Bool
deriving DecidableEq

/-- The Begin command record, translated from the created flags of the
Begin struct in src/commands/begin.rs; the ProjectPaths field is
abstracted into FS. -/
structure Begin where
  created_revisions : Bool
  created_root : Bool
  created_conf : Bool
  created_env : Bool
  created_env_ex : Bool
deriving DecidableEq

/-- Fault oracle for the file-system creation primitives the command can
attempt (directory creations, file creations, file writes): true means
the primitive succeeds when attempted. -/
structure FsOracle where
  create_root_dir : Bool
  create_revisions_dir : Bool
  create_conf_file : Bool
  write_conf_file : Bool
  create_env_file : Bool
  write_env_file : Bool
  create_env_ex_file : Bool
  write_env_ex_file : Bool
deriving DecidableEq

/-- Fault oracle for the removal primitives Begin::revert can attempt,
one per path, since each fs::remove_file or fs::remove_dir call in the
source is fallible: true means the removal succeeds when attempted. -/
structure RmOracle where
  remove_conf_file : Bool
  remove_env_file : Bool
  remove_env_ex_file : Bool
  remove_revisions_dir : Bool
  remove_root_dir : Bool
deriving DecidableEq

/-- Translated from Begin::create_root: the root directory is created
only if it does not already exist, recording the creation in the flag;
a failing create_dir leaves the file system unchanged. -/
def Begin.create_root (o : FsOracle) (fs : FS) (cmd : Begin) :
    Except (FS × Begin) (FS × Begin) :=
  if fs.root_dir then .ok (fs, cmd)
  else if o.create_root_dir then
    .ok ({ fs with root_dir := true }, { cmd with created_root := true })
  else .error (fs, cmd)

/-- Translated from Begin::create_revisions: same shape as create_root
for the revisions directory. -/
def Begin.create_revisions (o : FsOracle) (fs : FS) (cmd : Begin) :
    Except (FS × Begin) (FS × Begin) :=
  if fs.revisions_dir then .ok (fs, cmd)
  else if o.create_revisions_dir then
    .ok ({ fs with revisions_dir := true }, { cmd with created_revisions := true })
  else .error (fs, cmd)

/-- Translated from Begin::create_conf: File::create makes the file and
sets the flag before write_all runs, so a failing write still leaves the
file created and flagged. -/
def Begin.create_conf (o : FsOracle) (fs : FS) (cmd : Begin) :
    Except (FS × Begin) (FS × Begin) :=
  if o.create_conf_file then
    let fs1 := { fs with conf_file := true }
    let cmd1 := { cmd with created_conf := true }
    if o.write_conf_file then .ok (fs1, cmd1) else .error (fs1, cmd1)
  else .error (fs, cmd)

/-- Translated from Begin::create_env: the environment file and then the
example environment file are created and written in sequence, each flag
set directly after the corresponding File::create. -/
def Begin.create_env (o : FsOracle) (fs : FS) (cmd : Begin) :
    Except (FS × Begin) (FS × Begin) :=
  if o.create_env_file then
    let fs1 := { fs with env_file := true }
    let cmd1 := { cmd with created_env := true }
    if o.write_env_file then
      if o.create_env_ex_file then
        let fs2 := { fs1 with env_ex_file := true }
        let cmd2 := { cmd1 with created_env_ex := true }
        if o.write_env_ex_file then .ok (fs2, cmd2) else .error (fs2, cmd2)
      else .error (fs1, cmd1)
    else .error (fs1, cmd1)
  else .error (fs, cmd)

/-- One removal attempt of Begin::revert: skipped when the created flag
is unset; an attempted removal either clears the path or fails leaving
the file system unchanged, the failure short-circuiting the rest of
revert (the Except error). -/
def removeIf (flag ok2 : Bool) (clear : FS → FS) (fs : FS) : Except FS FS :=
  if flag then (if ok2 then .ok (clear fs) else .error fs) else .ok fs

/-- Translated from Begin::revert: the five removals run in source order
(config file, environment file, example environment file, revisions
directory, root directory), each attempted only when its created flag is
set; every fs::remove call in the source is fallible and propagates its
error with the question-mark operator, so a failing removal
short-circuits revert and leaves that path and every later flagged path
in place. The value is the file system reached when revert finished or
stopped. -/
def Begin.revert (ro : RmOracle) (fs : FS) (cmd : Begin) : FS :=
  match ((((removeIf cmd.created_conf ro.remove_conf_file
      (fun f => { f with conf_file := false }) fs).bind
    (fun f => removeIf cmd.created_env ro.remove_env_file
      (fun f2 => { f2 with env_file := false }) f)).bind
    (fun f => removeIf cmd.created_env_ex ro.remove_env_ex_file
      (fun f2 => { f2 with env_ex_file := false }) f)).bind
    (fun f => removeIf cmd.created_revisions ro.remove_revisions_dir
      (fun f2 => { f2 with revisions_dir := false }) f)).bind
    (fun f => removeIf cmd.created_root ro.remove_root_dir
      (fun f2 => { f2 with root_dir := false }) f) with
  | .ok f => f
  | .error f => f

/-- The four creation steps of Begin::execute chained with and_then,
starting from all-false flags. -/
def Begin.runSteps (init : FS) (o : FsOracle) : Except (FS × Begin) (FS × Begin) :=
  ((Begin.create_root o init ⟨false, false, false, false, false⟩).bind
    (fun p => Begin.create_revisions o p.1 p.2)).bind
      (fun p => (Begin.create_conf o p.1 p.2).bind
        (fun q => Begin.create_env o q.1 q.2))

/-- Translated from Begin::execute, which chains the four creation steps
and calls revert on the first failure. ProjectPaths::for_new_project is
not among the provided source files; it is modelled from the documented
contract in src/main.rs (the target directory must not already contain
the Journey toml files), failing before any step runs, with nothing
created and nothing reverted. On a step failure the returned error
carries the pre-revert file system, the flags, and the post-revert file
system produced by the fallible revert. -/
def Begin.execute (init : FS) (o : FsOracle) (ro : RmOracle) :
    Except (FS × Begin × FS) FS :=
  if init.conf_file || init.env_file || init.env_ex_file then
    .error (init, ⟨false, false, false, false, false⟩, init)
  else
    match Begin.runSteps init o with
    | .ok (fs, _) => .ok fs
    | .error (fs, cmd) => .error (fs, cmd, Begin.revert ro fs cmd)

/-- Boolean implication, used to keep the atomicity statement fully
decidable. -/
def implB (a b : Bool) : Bool := !a || b

/-- Every set created flag marks a path absent in the initial file
system: flags only record paths created by this invocation. -/
def flagsAbsent (init : FS) (cmd : Begin) : Bool :=
  implB cmd.created_root (!init.root_dir) &&
  implB cmd.created_revisions (!init.revisions_dir) &&
  implB cmd.created_conf (!init.conf_file) &&
  implB cmd.created_env (!init.env_file) &&
  implB cmd.created_env_ex (!init.env_ex_file)

/-- Every path of the first file system also exists in the second:
nothing was removed going from init to fs. -/
def growsFrom (init fs : FS) : Bool :=
  implB init.root_dir fs.root_dir &&
  implB init.revisions_dir fs.revisions_dir &&
  implB init.conf_file fs.conf_file &&
  implB init.env_file fs.env_file &&
  implB init.env_ex_file fs.env_ex_file

/-- Invariant of the creation steps for one reached (file system, flags)
pair: flags mark only initially absent paths, and creations never remove
anything. -/
def checkPair (init : FS) (p : FS × Begin) : Bool :=
  flagsAbsent init p.2 && growsFrom init p.1

/-- The creation-step invariant for either outcome of runSteps. -/
def checkSteps (init : FS) (r : Except (FS × Begin) (FS × Begin)) : Bool :=
  match r with
  | .ok p => checkPair init p
  | .error p => checkPair init p

/-- Revert never touches an unflagged path: for each path whose created
flag is unset, the post-revert file system agrees with the pre-revert
one. -/
def keepsUnflagged (pre post : FS) (cmd : Begin) : Bool :=
  implB (!cmd.created_root) (post.root_dir == pre.root_dir) &&
  implB (!cmd.created_revisions) (post.revisions_dir == pre.revisions_dir) &&
  implB (!cmd.created_conf) (post.conf_file == pre.conf_file) &&
  implB (!cmd.created_env) (post.env_file == pre.env_file) &&
  implB (!cmd.created_env_ex) (post.env_ex_file == pre.env_ex_file)

/-- The post-revert file system is exactly the pre-revert one with the
flagged paths removed. -/
def removesExactly (pre post : FS) (cmd : Begin) : Bool :=
  (post.root_dir == (pre.root_dir && !cmd.created_root)) &&
  (post.revisions_dir == (pre.revisions_dir && !cmd.created_revisions)) &&
  (post.conf_file == (pre.conf_file && !cmd.created_conf)) &&
  (post.env_file == (pre.env_file && !cmd.created_env)) &&
  (post.env_ex_file == (pre.env_ex_file && !cmd.created_env_ex)) 

/-- Every removal revert actually attempts (flag set) succeeds under the
removal oracle. -/
def attemptedRemovalsOk (ro : RmOracle) (cmd : Begin) : Bool :=
  implB cmd.created_conf ro.remove_conf_file &&
  implB cmd.created_env ro.remove_env_file &&
  implB cmd.created_env_ex ro.remove_env_ex_file &&
  implB cmd.created_revisions ro.remove_revisions_dir &&
  implB cmd.created_root ro.remove_root_dir

/-- What the fallible revert guarantees about the post-revert file
system: unflagged paths are never removed, and when every attempted
removal succeeds the flagged paths are removed exactly. -/
def checkRevertAt (pre : FS) (cmd : Begin) (ro : RmOracle) (post : FS) : Bool :=
  keepsUnflagged pre post cmd &&
  implB (attemptedRemovalsOk ro cmd) (removesExactly pre post cmd)

/-- The removes-exactly property of one run as originally claimed,
unconditionally on failure: used to exhibit the run where a failing
removal leaves flagged paths behind. -/
def beginRemovesFlagged (init : FS) (o : FsOracle) (ro : RmOracle) : Bool :=
  match Begin.execute init o ro with
  | .ok _ => true
  | .error (pre, cmd, post) => removesExactly pre post cmd

/-- Atomicity property of one run of Begin.execute, as a decidable
check. On success every pre-existing path must still exist. On failure:
the flags mark only paths absent before the call, the creation steps
never removed anything, revert never removes an unflagged path, revert
removes exactly the flagged paths whenever every attempted removal
succeeds, and every pre-existing path survives the revert. -/
def beginAtomic (init : FS) (o : FsOracle) (ro : RmOracle) : Bool :=
  match Begin.execute init o ro with
  | .ok fs => growsFrom init fs
  | .error (pre, cmd, post) =>
    checkPair init (pre, cmd) && checkRevertAt pre cmd ro post && growsFrom init post

lemma foldl_append_eq_join : ∀ (l : List String) (s : String),
    l.foldl (fun r t => r ++ t) s = s ++ String.join l := by
  intro l
  induction l with
  | nil => intro s; simp [String.join]
  | cons a l ih =>
    intro s
    show l.foldl (fun r t => r ++ t) (s ++ a) = s ++ String.join (a :: l)
    rw [ih (s ++ a)]
    have h2 : String.join (a :: l) = a ++ String.join l := by
      show l.foldl (fun r t => r ++ t) ("" ++ a) = a ++ String.join l
      rw [ih ("" ++ a), String.empty_append]
    rw [h2, String.append_assoc]

lemma join_cons (a : String) (l : List String) :
    String.join (a :: l) = a ++ String.join l := by
  show l.foldl (fun r t => r ++ t) ("" ++ a) = a ++ String.join l
  rw [foldl_append_eq_join l ("" ++ a), String.empty_append]

lemma join_nil : String.join ([] : List String) = "" := rfl

lemma join_one (g : String) : String.join [g] = g := by
  rw [join_cons]
  show g ++ String.join [] = g
  rw [join_nil, String.append_empty]

lemma join_two (a g : String) : String.join [a, g] = a ++ g := by
  rw [join_cons, join_one]

lemma join_three (a b g : String) : String.join [a, b, g] = a ++ (b ++ g) := by
  rw [join_cons, join_two]

lemma join_append (l1 l2 : List String) :
    String.join (l1 ++ l2) = String.join l1 ++ String.join l2 := by
  show (l1 ++ l2).foldl (fun r t => r ++ t) "" = String.join l1 ++ String.join l2
  rw [List.foldl_append, foldl_append_eq_join l2]
  rfl

lemma append_left_cancel {a b c : String} (h : a ++ b = a ++ c) : b = c := by
  have hd := congrArg String.data h
  simp only [String.data_append] at hd
  exact String.ext (List.append_cancel_left hd)

lemma step_heldInv (sc : ScanState) (g : String) (h : heldInv sc) :
    heldInv (step sc g) := by
  obtain ⟨st, held, buf, stmts⟩ := sc
  cases st
  case Start =>
    simp only [heldInv, heldFor] at h
    subst h
    simp only [step, List.nil_append, join_one, State.accept]
    split_ifs <;> simp_all [heldInv, heldFor]
  case InString =>
    simp only [heldInv, heldFor] at h
    subst h
    simp only [step, List.nil_append, join_one, State.accept]
    split_ifs <;> simp_all [heldInv, heldFor]
  case InDelimitedIdentifier =>
    simp only [heldInv, heldFor] at h
    subst h
    simp only [step, List.nil_append, join_one, State.accept]
    split_ifs <;> simp_all [heldInv, heldFor]
  case InInlineComment =>
    simp only [heldInv, heldFor] at h
    subst h
    simp only [step, List.nil_append, join_one, State.accept]
    split_ifs <;> simp_all [heldInv, heldFor]
  case MightStartInlineComment =>
    simp only [heldInv, heldFor] at h
    rcases h with h | h
    · subst h
      simp only [step, List.nil_append, join_one, State.accept]
      split_ifs <;> simp_all [heldInv, heldFor]
    · subst h
      simp only [step, List.cons_append, List.nil_append, join_two, State.accept]
      split_ifs <;> try simp_all [heldInv, heldFor]
      rename_i h4
      exfalso
      have hd := congrArg String.data h4
      rw [String.data_append] at hd
      have h5 : ('-' :: g.data) = ['/'] := hd
      simp at h5
  case MightStartBlockComment =>
    simp only [heldInv, heldFor] at h
    subst h
    simp only [step, List.cons_append, List.nil_append, join_two, State.accept]
    split_ifs <;> try simp_all [heldInv, heldFor]
    rename_i h4
    have h6 : ("/" : String) ++ g = "/" ++ "*" := by rw [h4]; decide
    exact append_left_cancel h6
  case InBlockComment =>
    simp only [heldInv, heldFor] at h
    rcases h with h | h
    · subst h
      simp only [step, List.nil_append, join_one, State.accept]
      split_ifs <;> simp_all [heldInv, heldFor]
    · subst h
      simp only [step, List.cons_append, List.nil_append, join_three, State.accept]
      split_ifs <;> try simp_all [heldInv, heldFor]
      rename_i h1
      exfalso
      have hd := congrArg String.data h1
      simp only [String.data_append] at hd
      have h2 : ('/' :: '*' :: g.data) = ['*'] := hd
      simp at h2
  case MightEndBlockComment =>
    simp only [heldInv, heldFor] at h
    subst h
    simp only [step, List.cons_append, List.nil_append, join_two, State.accept]
    split_ifs <;> simp_all [heldInv, heldFor]

lemma heldInv_scanCore (gs : List String) : heldInv (scanCore gs) := by
  have base : heldInv scanInit := by simp [heldInv, heldFor, scanInit]
  have main : ∀ (l : List String) (sc : ScanState), heldInv sc →
      heldInv (l.foldl step sc) := by
    intro l
    induction l with
    | nil => intro sc hsc; exact hsc
    | cons g l ih => intro sc hsc; exact ih _ (step_heldInv sc g hsc)
  exact main gs scanInit base

lemma dropWhile_nonws_eq_self (l : List String) (h : ∀ g ∈ l, isWs g = false) :
    l.dropWhile isWs = l := by
  cases l with
  | nil => rfl
  | cons a t =>
    rw [List.dropWhile_cons]
    simp [h a (List.mem_cons_self a t)]

lemma trimWs_nonws_eq_self (l : List String) (h : ∀ g ∈ l, isWs g = false) :
    trimWs l = l := by
  unfold trimWs
  rw [dropWhile_nonws_eq_self l h,
    dropWhile_nonws_eq_self l.reverse (fun g hg => h g (List.mem_reverse.mp hg)),
    List.reverse_reverse]

lemma trimWs_append_nonws (buf : List String) (h : String) (hh : isWs h = false) :
    ∃ q, trimWs (buf ++ [h]) = q ++ [h] := by
  unfold trimWs
  rw [List.dropWhile_append]
  by_cases hb : (buf.dropWhile isWs).isEmpty = true
  · rw [if_pos hb]
    exact ⟨[], by simp [List.dropWhile_cons, hh]⟩
  · rw [if_neg hb]
    exact ⟨buf.dropWhile isWs, by simp [List.dropWhile_cons, hh]⟩

lemma flushInto_append_nonws (stmts buf : List String) (h : String)
    (hh : isWs h = false) :
    ∃ p, flushInto stmts (buf ++ [h]) = stmts ++ [p ++ h] := by
  obtain ⟨q, hq⟩ := trimWs_append_nonws buf h hh
  refine ⟨String.join q, ?_⟩
  unfold flushInto
  rw [hq, if_neg (by simp), join_append, join_one]

lemma step_start_clean (buf stmts : List String) (g : String)
    (hq : g ≠ "\u0027") (hd : g ≠ "\"") (hda : g ≠ "-") (hs : g ≠ "/") :
    step ⟨.Start, [], buf, stmts⟩ g =
      if g = ";" then ⟨.Start, [], [], flushInto stmts (buf ++ [g])⟩
      else ⟨.Start, [], buf ++ [g], stmts⟩ := by
  simp only [step, List.nil_append, join_one, State.accept]
  rw [if_neg hq, if_neg hd, if_neg hda, if_neg hs]
  by_cases hg : g = ";"
  · simp [hg]
  · simp [hg]

lemma roundtrip_fold :
    ∀ (gs : List String) (sc : ScanState), (∀ g ∈ gs, cleanG g = true) →
      sc.state = State.Start → sc.held = [] →
      (∀ g ∈ sc.buf, isWs g = false) →
      (gs.foldl step sc).state = State.Start ∧ (gs.foldl step sc).held = [] ∧
      (∀ g ∈ (gs.foldl step sc).buf, isWs g = false) ∧
      String.join (gs.foldl step sc).stmts ++ String.join (gs.foldl step sc).buf =
        String.join sc.stmts ++ String.join sc.buf ++ String.join gs := by
  intro gs
  induction gs with
  | nil =>
    intro sc hcl hst hh hbuf
    refine ⟨hst, hh, hbuf, ?_⟩
    rw [List.foldl_nil, join_nil, String.append_empty]
  | cons g gs ih =>
    intro sc hcl hst hh hbuf
    obtain ⟨st, held, buf, stmts⟩ := sc
    simp only at hst hh hbuf
    subst hst
    subst hh
    have hg := hcl g (List.mem_cons_self g gs)
    have hcl2 : ∀ x ∈ gs, cleanG x = true := fun x hx => hcl x (List.mem_cons_of_mem g hx)
    simp only [cleanG, Bool.and_eq_true, Bool.not_eq_true', beq_eq_false_iff_ne] at hg
    obtain ⟨⟨⟨⟨hq, hdq⟩, hda⟩, hsl⟩, hws⟩ := hg
    have hnw : ∀ x ∈ buf ++ [g], isWs x = false := by
      intro x hx
      rcases List.mem_append.mp hx with hx | hx
      · exact hbuf x hx
      · rw [List.mem_singleton.mp hx]
        exact hws
    rw [List.foldl_cons, step_start_clean buf stmts g hq hdq hda hsl]
    by_cases hg : g = ";"
    · rw [if_pos hg]
      have ih2 := ih ⟨.Start, [], [], flushInto stmts (buf ++ [g])⟩ hcl2 rfl rfl
        (by intro x hx; cases hx)
      refine ⟨ih2.1, ih2.2.1, ih2.2.2.1, ?_⟩
      rw [ih2.2.2.2]
      have hfl : flushInto stmts (buf ++ [g]) = stmts ++ [String.join (buf ++ [g])] := by
        unfold flushInto
        rw [trimWs_nonws_eq_self _ hnw, if_neg (by simp)]
      rw [hfl]
      simp only [join_append, join_cons, join_one, join_nil]
      simp [String.append_empty, String.empty_append, String.append_assoc]
    · rw [if_neg hg]
      have ih2 := ih ⟨.Start, [], buf ++ [g], stmts⟩ hcl2 rfl rfl hnw
      refine ⟨ih2.1, ih2.2.1, ih2.2.2.1, ?_⟩
      rw [ih2.2.2.2]
      simp only [join_append, join_cons, join_one, join_nil]
      simp [String.append_empty, String.empty_append, String.append_assoc]
lemma surv : ∀ i f pr po : Bool,
    implB f (!i) = true → implB (!f) (po == pr) = true → implB i pr = true →
    implB i po = true := by decide

lemma checkSteps_all :
    ∀ (r v o1 o2 o3 o4 o5 o6 o7 o8 : Bool),
      checkSteps ⟨r, v, false, false, false⟩
        (Begin.runSteps ⟨r, v, false, false, false⟩
          ⟨o1, o2, o3, o4, o5, o6, o7, o8⟩) = true := by
  decide

set_option maxHeartbeats 1600000 in
lemma checkRevertAt_all :
    ∀ (a b c d e f1 f2 f3 f4 f5 q1 q2 q3 q4 q5 : Bool),
      checkRevertAt ⟨a, b, c, d, e⟩ ⟨f1, f2, f3, f4, f5⟩ ⟨q1, q2, q3, q4, q5⟩
        (Begin.revert ⟨q1, q2, q3, q4, q5⟩ ⟨a, b, c, d, e⟩ ⟨f1, f2, f3, f4, f5⟩) = true := by
  intro a b c d e f1 f2 f3 f4 f5 q1 q2 q3 q4 q5
  cases f1 <;> cases f2 <;> cases f3 <;> cases f4 <;> cases f5 <;>
    cases q1 <;> cases q2 <;> cases q3 <;> cases q4 <;> cases q5 <;>
      simp [checkRevertAt, keepsUnflagged, removesExactly, attemptedRemovalsOk,
        Begin.revert, removeIf, Except.bind, implB]

lemma growsFrom_post (init pre post : FS) (cmd : Begin)
    (h1 : flagsAbsent init cmd = true) (h2 : growsFrom init pre = true)
    (h3 : keepsUnflagged pre post cmd = true) :
    growsFrom init post = true := by
  simp only [flagsAbsent, growsFrom, keepsUnflagged, Bool.and_eq_true] at h1 h2 h3 ⊢
  obtain ⟨⟨⟨⟨a1, a2⟩, a3⟩, a4⟩, a5⟩ := h1
  obtain ⟨⟨⟨⟨b1, b2⟩, b3⟩, b4⟩, b5⟩ := h2
  obtain ⟨⟨⟨⟨c1, c2⟩, c3⟩, c4⟩, c5⟩ := h3
  exact ⟨⟨⟨⟨surv _ _ _ _ a1 c1 b1, surv _ _ _ _ a2 c2 b2⟩, surv _ _ _ _ a3 c3 b3⟩,
    surv _ _ _ _ a4 c4 b4⟩, surv _ _ _ _ a5 c5 b5⟩

lemma beginAtomic_toml (init : FS) (o : FsOracle) (ro : RmOracle)
    (h : (init.conf_file || init.env_file || init.env_ex_file) = true) :
    beginAtomic init o ro = true := by
  unfold beginAtomic Begin.execute
  rw [h]
  simp [checkPair, flagsAbsent, growsFrom, checkRevertAt, keepsUnflagged,
    removesExactly, attemptedRemovalsOk, implB]

lemma beginAtomic_of (init : FS) (o : FsOracle) (ro : RmOracle)
    (htoml : (init.conf_file || init.env_file || init.env_ex_file) = false)
    (hA : checkSteps init (Begin.runSteps init o) = true) :
    beginAtomic init o ro = true := by
  unfold beginAtomic Begin.execute
  rw [htoml]
  cases hr : Begin.runSteps init o with
  | ok p =>
    obtain ⟨fs, cmd⟩ := p
    rw [hr] at hA
    simp only [checkSteps, checkPair, Bool.and_eq_true] at hA
    show growsFrom init fs = true
    exact hA.2
  | error p =>
    obtain ⟨fs, cmd⟩ := p
    rw [hr] at hA
    simp only [checkSteps] at hA
    have hB : checkRevertAt fs cmd ro (Begin.revert ro fs cmd) = true :=
      checkRevertAt_all fs.root_dir fs.revisions_dir fs.conf_file fs.env_file
        fs.env_ex_file cmd.created_revisions cmd.created_root cmd.created_conf
        cmd.created_env cmd.created_env_ex ro.remove_conf_file ro.remove_env_file
        ro.remove_env_ex_file ro.remove_revisions_dir ro.remove_root_dir
    have hA2 := hA
    simp only [checkPair, Bool.and_eq_true] at hA2
    have hB2 := hB
    simp only [checkRevertAt, Bool.and_eq_true] at hB2
    have hC : growsFrom init (Begin.revert ro fs cmd) = true :=
      growsFrom_post init fs (Begin.revert ro fs cmd) cmd hA2.1 hA2.2 hB2.1
    show (checkPair init (fs, cmd) && checkRevertAt fs cmd ro (Begin.revert ro fs cmd) &&
      growsFrom init (Begin.revert ro fs cmd)) = true
    simp only [Bool.and_eq_true]
    exact ⟨⟨hA, hB⟩, hC⟩

/-- C1: for every lexer state and every lookahead key, State.accept
returns exactly the (disposition, next state) pair listed in the section
4.1 table of the spec (specTable), under the renaming Emit = Append,
Drop = Ignore, Hold = Carry, with each (state, key class) pair mapping
to exactly one result. -/
theorem accept_matches_spec_table :
    ∀ (st : State) (s : String), State.accept st s = specTable st s := by
  intro st s
  cases st <;> rfl

/-- C2 counterexample: a concrete input that reaches end of input in
InInlineComment and whose scan fails rather than succeeding, refuting
the claim that such a scan succeeds with no lexical error. -/
theorem eof_in_line_comment_cex :
    (scanCore (asciiGraphemes ("select 1; -- x"))).state = State.InInlineComment ∧
    scan (asciiGraphemes ("select 1; -- x")) =
      Except.error LexError.UnterminatedLineComment := by
  exact ⟨by decide, by rfl⟩

/-- C2 (amended): InInlineComment is not terminable (can_terminate is
false), so every input whose scan reaches end of input in
InInlineComment fails with a lexical error instead of succeeding. -/
theorem eof_in_line_comment_is_error :
    State.can_terminate State.InInlineComment = false ∧
    ∀ gs : List String, (scanCore gs).state = State.InInlineComment →
      scan gs = Except.error LexError.UnterminatedLineComment := by
  refine ⟨rfl, ?_⟩
  intro gs h
  unfold scan scanEOF
  rw [h]
  rfl

/-- C2 witness: the amended theorem applied at a concrete input ending
inside a line comment. -/
theorem eof_in_line_comment_is_error_witness :
    scan (asciiGraphemes ("-- note")) =
      Except.error LexError.UnterminatedLineComment :=
  eof_in_line_comment_is_error.2 (asciiGraphemes ("-- note")) (by decide)

/-- C3: every input that ends in a non-terminable construct state yields
the matching typed failure: InString gives UnterminatedString,
InDelimitedIdentifier gives UnterminatedQuotedIdentifier, InBlockComment
and MightEndBlockComment give UnterminatedBlockComment; the scan result
is then an error carrying no statement list, so zero statements are
produced, and in particular scanning the text select-quote-abc fails
with UnterminatedString. -/
theorem unterminated_states_fail :
    (∀ gs : List String, (scanCore gs).state = State.InString →
      scan gs = Except.error LexError.UnterminatedString) ∧
    (∀ gs : List String, (scanCore gs).state = State.InDelimitedIdentifier →
      scan gs = Except.error LexError.UnterminatedQuotedIdentifier) ∧
    (∀ gs : List String, (scanCore gs).state = State.InBlockComment →
      scan gs = Except.error LexError.UnterminatedBlockComment) ∧
    (∀ gs : List String, (scanCore gs).state = State.MightEndBlockComment →
      scan gs = Except.error LexError.UnterminatedBlockComment) ∧
    scan (asciiGraphemes ("select 'abc")) =
      Except.error LexError.UnterminatedString := by
  refine ⟨?_, ?_, ?_, ?_, by rfl⟩ <;>
    · intro gs h
      unfold scan scanEOF
      rw [h]
      rfl

/-- C3 witness: the theorem applied at concrete inputs reaching each of
the four non-terminable construct states at end of input. -/
theorem unterminated_states_fail_witness :
    scan (asciiGraphemes ("'")) = Except.error LexError.UnterminatedString ∧
    scan (asciiGraphemes ("\"")) =
      Except.error LexError.UnterminatedQuotedIdentifier ∧
    scan (asciiGraphemes ("/*x")) =
      Except.error LexError.UnterminatedBlockComment ∧
    scan (asciiGraphemes ("/*x*")) =
      Except.error LexError.UnterminatedBlockComment :=
  ⟨unterminated_states_fail.1 _ (by decide),
   unterminated_states_fail.2.1 _ (by decide),
   unterminated_states_fail.2.2.1 _ (by decide),
   unterminated_states_fail.2.2.2.1 _ (by decide)⟩

/-- C4: scanning the input of section 8 with a trailing line comment
between two statements yields exactly the two statements with the
comment text absent, and the newline key in InInlineComment is emitted
and returns the machine to Start. -/
theorem line_comment_example_two_statements :
    scan (asciiGraphemes ("select 1; -- trailing comment\nselect 2;")) =
      Except.ok ["select 1;", "select 2;"] ∧
    State.accept State.InInlineComment ("\n") = (Action.Append, State.Start) :=
  ⟨by rfl, by rfl⟩

/-- C5: a statement delimiter inside a string literal or a block comment
never ends a statement: the block comment example scans to the single
statement with the comment replaced by nothing, the quoted delimiter
example scans to exactly one statement, and in each literal or comment
state the delimiter key leaves the machine inside the construct. -/
theorem delimiter_inert_in_literals :
    scan (asciiGraphemes ("select /* a; b */ 1;")) = Except.ok ["select  1;"] ∧
    scan (asciiGraphemes ("select ';' as x;")) =
      Except.ok ["select ';' as x;"] ∧
    State.accept State.InString (";") = (Action.Append, State.InString) ∧
    State.accept State.InDelimitedIdentifier (";") =
      (Action.Append, State.InDelimitedIdentifier) ∧
    State.accept State.InInlineComment (";") =
      (Action.Ignore, State.InInlineComment) ∧
    State.accept State.InBlockComment (";") =
      (Action.Ignore, State.InBlockComment) ∧
    State.accept State.MightEndBlockComment ("*;") =
      (Action.Ignore, State.InBlockComment) :=
  ⟨by rfl, by rfl, by rfl, by rfl, by rfl, by rfl, by rfl⟩

/-- C6: block comments do not nest: in InBlockComment an inner slash is
dropped like any other content, the first close key returns the machine
to Start, and in the section 8 example the text after the first close,
up to and including the literal trailing close marker, surfaces as live
SQL. -/
theorem block_comments_do_not_nest :
    State.accept State.InBlockComment ("/") = (Action.Ignore, State.InBlockComment) ∧
    State.accept State.MightEndBlockComment ("*/") = (Action.Ignore, State.Start) ∧
    scan (asciiGraphemes ("/* outer /* inner */ still comment */")) =
      Except.ok ["still comment */"] :=
  ⟨by rfl, by rfl, by rfl⟩

/-- C9: for every lookahead key other than the exact close marker,
MightEndBlockComment ignores the key and returns to InBlockComment; in
particular the key of two asterisks does so, and a block comment whose
close is written asterisk-asterisk-slash stays open to end of input. -/
theorem might_end_default_to_in_block :
    (∀ s : String, s ≠ "*/" →
      State.accept State.MightEndBlockComment s =
        (Action.Ignore, State.InBlockComment)) ∧
    State.accept State.MightEndBlockComment ("**") =
      (Action.Ignore, State.InBlockComment) ∧
    scan (asciiGraphemes ("/* x **/")) =
      Except.error LexError.UnterminatedBlockComment := by
  refine ⟨?_, by rfl, by rfl⟩
  intro s hs
  show (if s = "*/" then ((Action.Ignore, State.Start) : Action × State)
      else (Action.Ignore, State.InBlockComment)) =
    (Action.Ignore, State.InBlockComment)
  rw [if_neg hs]

/-- C9 witness: the default arm applied at the concrete double-asterisk
key. -/
theorem might_end_default_to_in_block_witness :
    State.accept State.MightEndBlockComment ("**") =
      (Action.Ignore, State.InBlockComment) :=
  might_end_default_to_in_block.1 ("**") (by decide)

/-- C7: a held grapheme is never silently discarded: whenever input ends
with a non-empty held key in a terminable state, the scan succeeds and
the held text surfaces at the end of the final emitted statement, and in
particular the input ending on a held dash surfaces the dash as literal
text. -/
theorem held_grapheme_surfaces :
    (∀ gs : List String, (scanCore gs).state.can_terminate = true →
      (scanCore gs).held ≠ [] →
      ∃ rest p, scan gs = Except.ok (rest ++ [p ++ String.join (scanCore gs).held])) ∧
    scan (asciiGraphemes ("select 1 -")) = Except.ok ["select 1 -"] := by
  refine ⟨?_, by rfl⟩
  intro gs hterm hheld
  have hinv := heldInv_scanCore gs
  unfold heldInv at hinv
  show ∃ rest p, scanEOF (scanCore gs) =
    Except.ok (rest ++ [p ++ String.join (scanCore gs).held])
  unfold scanEOF
  rw [if_pos hterm]
  cases hst : (scanCore gs).state
  case Start =>
    rw [hst] at hinv
    simp only [heldFor] at hinv
    exact absurd hinv hheld
  case MightStartInlineComment =>
    rw [hst] at hinv
    simp only [heldFor] at hinv
    rcases hinv with hi | hi
    · exact absurd hi hheld
    · rw [hi, join_one]
      obtain ⟨p, hp⟩ :=
        flushInto_append_nonws (scanCore gs).stmts (scanCore gs).buf ("-") (by decide)
      exact ⟨(scanCore gs).stmts, p, by rw [hp]⟩
  case MightStartBlockComment =>
    rw [hst] at hinv
    simp only [heldFor] at hinv
    rw [hinv, join_one]
    obtain ⟨p, hp⟩ :=
      flushInto_append_nonws (scanCore gs).stmts (scanCore gs).buf ("/") (by decide)
    exact ⟨(scanCore gs).stmts, p, by rw [hp]⟩
  all_goals (rw [hst] at hterm; simp [State.can_terminate] at hterm)

/-- C7 witness: the theorem applied at the concrete input ending on a
held dash in the terminable MightStartInlineComment state. -/
theorem held_grapheme_surfaces_witness :
    ∃ rest p, scan (asciiGraphemes ("select 1 -")) =
      Except.ok (rest ++ [p ++ String.join (scanCore (asciiGraphemes ("select 1 -"))).held]) :=
  held_grapheme_surfaces.1 (asciiGraphemes ("select 1 -")) (by decide) (by decide)

/-- C8 counterexample: the input of a space then the letter a contains
none of the four special graphemes, yet its scan yields the single
statement a with the leading whitespace trimmed, so concatenating the
emitted statements does not reconstruct the input exactly. -/
theorem roundtrip_cex :
    ((asciiGraphemes (" a")).all
      (fun g => !(g == "\u0027") && !(g == "\"") && !(g == "-") && !(g == "/"))) = true ∧
    scan (asciiGraphemes (" a")) = Except.ok ["a"] ∧
    String.join ["a"] ≠ " a" :=
  ⟨by decide, by rfl, by decide⟩

/-- C8 (amended): for every input containing none of the four special
graphemes and no whitespace graphemes, the scan succeeds and
concatenating the emitted statements (delimiters are part of the
statements) reconstructs the original input exactly; with whitespace,
reconstruction holds only up to the trimming of whitespace at statement
boundaries. -/
theorem roundtrip_no_whitespace :
    ∀ gs : List String, (∀ g ∈ gs, cleanG g = true) →
      ∃ stmts, scan gs = Except.ok stmts ∧ String.join stmts = String.join gs := by
  intro gs hcl
  obtain ⟨hst, hh, hbuf, heq⟩ :=
    roundtrip_fold gs scanInit hcl rfl rfl (by intro x hx; cases hx)
  have hterm : (scanCore gs).state.can_terminate = true := by
    show (gs.foldl step scanInit).state.can_terminate = true
    rw [hst]
    rfl
  unfold scan scanEOF
  rw [if_pos hterm]
  have hh2 : (scanCore gs).held = [] := hh
  rw [hh2, List.append_nil]
  have hbuf2 : ∀ x ∈ (scanCore gs).buf, isWs x = false := hbuf
  have heq2 : String.join (scanCore gs).stmts ++ String.join (scanCore gs).buf =
      String.join gs := by
    have he : String.join scanInit.stmts ++ String.join scanInit.buf ++ String.join gs =
        String.join gs := by
      rw [show String.join scanInit.stmts = "" from rfl,
        show String.join scanInit.buf = "" from rfl,
        String.empty_append, String.empty_append]
    exact heq.trans he
  by_cases hb : trimWs (scanCore gs).buf = []
  · have hbe : (scanCore gs).buf = [] := by
      rw [trimWs_nonws_eq_self _ hbuf2] at hb
      exact hb
    refine ⟨(scanCore gs).stmts, ?_, ?_⟩
    · unfold flushInto
      rw [if_pos hb]
    · rw [hbe, join_nil, String.append_empty] at heq2
      exact heq2
  · refine ⟨(scanCore gs).stmts ++ [String.join ((scanCore gs).buf)], ?_, ?_⟩
    · unfold flushInto
      rw [if_neg hb, trimWs_nonws_eq_self _ hbuf2]
    · rw [join_append, join_one]
      exact heq2

/-- C8 witness: the amended round-trip applied at a concrete
whitespace-free comment-free input with an inner delimiter. -/
theorem roundtrip_no_whitespace_witness :
    ∃ stmts, scan (asciiGraphemes ("ab;c")) = Except.ok stmts ∧
      String.join stmts = String.join (asciiGraphemes ("ab;c")) :=
  roundtrip_no_whitespace (asciiGraphemes ("ab;c")) (by decide)

/-- C10 counterexample: a run in which every creation succeeds except
the final environment-example write, so all five created flags are set,
and the first removal revert attempts (the config file) fails: revert
short-circuits immediately and removes nothing, so the post-revert file
system is not the pre-revert one with the flagged paths removed,
refuting the claim that revert removes exactly the flagged paths. -/
theorem begin_revert_cex :
    beginRemovesFlagged ⟨false, false, false, false, false⟩
      ⟨true, true, true, true, true, true, true, false⟩
      ⟨false, true, true, true, true⟩ = false := by rfl

/-- C10 (amended): Begin.execute is atomic up to removal failures. On
success every pre-existing path still exists. On failure, revert
attempts removal of exactly the paths whose created flag was set this
invocation, in source order, and a failing removal short-circuits: an
unflagged path is never removed, every flagged path was absent before
the call, every pre-existing path survives the revert, and when every
attempted removal succeeds the post-revert file system is exactly the
pre-revert one minus the flagged paths. Quantified over every initial
file system, creation oracle and removal oracle. -/
theorem begin_execute_atomic :
    ∀ (r v c e x o1 o2 o3 o4 o5 o6 o7 o8 q1 q2 q3 q4 q5 : Bool),
      beginAtomic ⟨r, v, c, e, x⟩ ⟨o1, o2, o3, o4, o5, o6, o7, o8⟩
        ⟨q1, q2, q3, q4, q5⟩ = true := by
  intro r v c e x o1 o2 o3 o4 o5 o6 o7 o8 q1 q2 q3 q4 q5
  by_cases h : (c || e || x) = true
  · exact beginAtomic_toml ⟨r, v, c, e, x⟩ ⟨o1, o2, o3, o4, o5, o6, o7, o8⟩
      ⟨q1, q2, q3, q4, q5⟩ h
  · have h3 := h
    simp only [Bool.or_eq_true, not_or, Bool.not_eq_true] at h3
    obtain ⟨⟨hc, he⟩, hx⟩ := h3
    subst hc
    subst he
    subst hx
    exact beginAtomic_of ⟨r, v, false, false, false⟩ ⟨o1, o2, o3, o4, o5, o6, o7, o8⟩
      ⟨q1, q2, q3, q4, q5⟩ rfl
      (checkSteps_all r v o1 o2 o3 o4 o5 o6 o7 o8)

/-- C10 witness: the atomicity check applied with a pre-existing root
directory, an oracle failing the config-file write, and a removal oracle
failing the config-file removal: revert stops there, the created
revisions directory survives alongside the pre-existing root, and no
unflagged path is touched. -/
theorem begin_execute_atomic_witness :
    beginAtomic ⟨true, false, false, false, false⟩
      ⟨true, true, true, false, true, true, true, true⟩
      ⟨false, true, true, true, true⟩ = true :=
  begin_execute_atomic true false false false false true true true false true true true
    true false true true true true

end Jrny
